import Mathlib

/-! Leader-worker-set utilities: naming resolver and group state inspector.

A shallow embedding of `pkg/utils/statefulset/statefulset_utils.go`
(`GetParentNameAndOrdinal`, `StatefulsetReady`) together with models of the two
library calls it makes (`regexp.FindStringSubmatch` for the pattern
`(.*)-([0-9]+)$` and `strconv.ParseInt`), and of the pod helpers
`ContainerRestarted` and `AddLWSVariables` exercised by
`pkg/utils/pod/pod_utils_test.go`.

Go strings are embedded as Lean strings (sequences of code points); the pattern
only inspects the ASCII characters `-`, `0`..`9` and line feed, and otherwise
copies characters unchanged.
-/

namespace Lws

/-! ## `strconv.ParseInt` in base 10 -/

/-- The two error kinds of `strconv`: `ErrSyntax` and `ErrRange`. -/
inductive NumError where
  | ErrSyntax
  | ErrRange
  deriving DecidableEq, Repr

/-- The character class `[0-9]` (also the digit test of `strconv.ParseUint`):
`'0' <= c && c <= '9'`. -/
def isDigit09 (c : Char) : Bool :=
  decide (48 ≤ c.toNat) && decide (c.toNat ≤ 57)

/-- The constant `maxUint64 = 1<<64 - 1` of `strconv`. -/
def maxUint64 : Nat := 2 ^ 64 - 1

/-- The digit loop of `strconv.ParseUint` at base 10: `n` is the `uint64`
accumulator, `maxVal = 1<<bitSize - 1`. A character outside `0`..`9` is a syntax
error; `n >= cutoff` (where `cutoff = maxUint64/10 + 1`) means `n*10` overflows
and is a range error; the sum `n1 = n*10 + d` is computed modulo `2^64` and
`n1 < n*10 || n1 > maxVal` is a range error. -/
def parseUintLoop (maxVal : Nat) : Nat → List Char → Except NumError Nat
  | n, [] => .ok n
  | n, c :: cs =>
    if isDigit09 c then
      let d := c.toNat - 48
      if n ≥ maxUint64 / 10 + 1 then .error .ErrRange
      else
        let n10 := (n * 10) % 2 ^ 64
        let n1 := (n10 + d) % 2 ^ 64
        if n1 < n10 ∨ n1 > maxVal then .error .ErrRange
        else parseUintLoop maxVal n1 cs
    else .error .ErrSyntax

/-- The call `strconv.ParseUint(s, 10, bitSize)`: the empty string is a syntax
error, otherwise the digit loop runs from 0. -/
def ParseUint (s : List Char) (bitSize : Nat) : Except NumError Nat :=
  if s = [] then .error .ErrSyntax
  else parseUintLoop (2 ^ bitSize - 1) 0 s

/-- The call `strconv.ParseInt(s, 10, bitSize)`: an optional sign, then
`ParseUint`; a syntax error is passed on, and a magnitude outside the signed
range of `bitSize` bits (also one `ParseUint` already rejected as out of range)
is a range error. With `cutoff = 1 << (bitSize-1)`: a non-negative value must be
below `cutoff`, a negative one may have magnitude `cutoff`. -/
def ParseInt (s : List Char) (bitSize : Nat) : Except NumError Int :=
  match s with
  | [] => .error .ErrSyntax
  | c :: cs =>
    let neg := decide (c = '-')
    let body := if c = '+' ∨ c = '-' then cs else c :: cs
    let cutoff := 2 ^ (bitSize - 1)
    match ParseUint body bitSize with
    | .error .ErrSyntax => .error .ErrSyntax
    | .error .ErrRange => .error .ErrRange
    | .ok un =>
      if !neg ∧ un ≥ cutoff then .error .ErrRange
      else if neg ∧ un > cutoff then .error .ErrRange
      else .ok (if neg then -(un : Int) else (un : Int))

/-! ## `statefulPodRegex = (.*)-([0-9]+)$` -/

/-- The tail `-([0-9]+)$` of the pattern matched at the head of `s`: a hyphen,
then the greedy digit run, which must be non-empty and reach the end of the
text (a shorter run would leave a digit before `$`). Returns capture group 2. -/
def matchSuffix : List Char → Option (List Char)
  | [] => none
  | c :: cs =>
    if c = '-' then
      let run := cs.takeWhile isDigit09
      if run ≠ [] ∧ cs.dropWhile isDigit09 = [] then some run else none
    else none

/-- The whole pattern `(.*)-([0-9]+)$` matched with its start fixed at the head
of `s`, as a backtracking matcher does it: the greedy `.*` first tries to take
one more character (any character but line feed) and falls back to stopping
here, where the tail must match. Returns capture groups 1 and 2. -/
def matchAt : List Char → Option (List Char × List Char)
  | [] => (matchSuffix []).map (fun g2 => ([], g2))
  | c :: cs =>
    if c ≠ '\n' then
      match matchAt cs with
      | some (g1, g2) => some (c :: g1, g2)
      | none => (matchSuffix (c :: cs)).map (fun g2 => ([], g2))
    else (matchSuffix (c :: cs)).map (fun g2 => ([], g2))

/-- The leftmost match of the unanchored pattern: start positions are tried
from left to right, and the first one at which `matchAt` succeeds wins. The
match always runs to the end of the text, so the whole match is the text from
the start position. Returns `[whole, group 1, group 2]`, or the empty list (Go:
`nil`) when nothing matches. -/
def findLeftmost : List Char → List (List Char)
  | [] =>
    match matchAt [] with
    | some (g1, g2) => [[], g1, g2]
    | none => []
  | c :: cs =>
    match matchAt (c :: cs) with
    | some (g1, g2) => [c :: cs, g1, g2]
    | none => findLeftmost cs

/-- The call `statefulPodRegex.FindStringSubmatch(name)`. -/
def FindStringSubmatch (name : String) : List String :=
  (findLeftmost name.data).map String.mk

/-! ## `GetParentNameAndOrdinal` -/

/-- Gets the name of a pod's parent StatefulSet and the pod's ordinal as extracted
from its name; parent `""` and ordinal `-1` when the name does not match. -/
def GetParentNameAndOrdinal (name : String) : String × Int :=
  let parent := ""
  let ordinal : Int := -1
  let subMatches := FindStringSubmatch name
  if subMatches.length < 3 then (parent, ordinal)
  else
    let parent := subMatches.getD 1 ""
    match ParseInt (subMatches.getD 2 "").data 32 with
    | .ok i => (parent, i)
    | .error _ => (parent, ordinal)

/-! ## `StatefulsetReady` -/

/-- A run-time panic of the Go program. -/
inductive Panic where
  | nilDereference
  deriving DecidableEq, Repr

/-- The fields of `appsv1.StatefulSetSpec` read here; `Replicas` is a pointer
(`*int32`), absent when `nil`. -/
structure StatefulSetSpec where
  Replicas : Option Int
  ServiceName : String
  deriving DecidableEq, Repr

/-- The fields of `appsv1.StatefulSetStatus` (counts are `int32`, revisions are
strings). -/
structure StatefulSetStatus where
  Replicas : Int
  ReadyReplicas : Int
  CurrentReplicas : Int
  UpdatedReplicas : Int
  AvailableReplicas : Int
  CurrentRevision : String
  UpdateRevision : String
  deriving DecidableEq, Repr

/-- The type `appsv1.StatefulSet`. -/
structure StatefulSet where
  Name : String
  Spec : StatefulSetSpec
  Status : StatefulSetStatus
  deriving DecidableEq, Repr

/-- Checks whether a sts is ready. The left operand `*sts.Spec.Replicas` is
evaluated first, so a nil pointer panics before anything is compared. -/
def StatefulsetReady (sts : StatefulSet) : Except Panic Bool :=
  match sts.Spec.Replicas with
  | none => .error .nilDereference
  | some replicas =>
    .ok (decide (replicas = sts.Status.Replicas) &&
      decide (sts.Status.CurrentRevision = sts.Status.UpdateRevision))

/-! ## Pods -/

/-- The pod phases of the spec's data model. -/
inductive PodPhase where
  | Pending
  | Running
  | Succeeded
  | Failed
  | Unknown
  deriving DecidableEq, Repr

/-- A container status; only the restart counter (`int32`) is read. -/
structure ContainerStatus where
  RestartCount : Int
  deriving DecidableEq, Repr

/-- An environment variable of a container. -/
structure EnvVar where
  Name : String
  Value : String
  deriving DecidableEq, Repr

/-- A container of a pod spec. -/
structure Container where
  Name : String
  Image : String
  Env : List EnvVar
  deriving DecidableEq, Repr

/-- The two labels a group member carries (a label that is not set reads as the
empty string, as a Go map lookup does). -/
structure Labels where
  SetName : String
  GroupIndex : String
  deriving DecidableEq, Repr

/-- The fields of `v1.ObjectMeta` used here. -/
structure ObjectMeta where
  Name : String
  Namespace : String
  Labels : Labels
  deriving DecidableEq, Repr

/-- The fields of `corev1.PodSpec` used here. -/
structure PodSpec where
  Containers : List Container
  Subdomain : String
  deriving DecidableEq, Repr

/-- The fields of `corev1.PodStatus` used here. -/
structure PodStatus where
  Phase : PodPhase
  InitContainerStatuses : List ContainerStatus
  ContainerStatuses : List ContainerStatus
  deriving DecidableEq, Repr

/-- The type `corev1.Pod`. -/
structure Pod where
  ObjectMeta : ObjectMeta
  Spec : PodSpec
  Status : PodStatus
  deriving DecidableEq, Repr

/-- The test helper `MakePod` of `pod_utils_test.go`: one container, the pod
name `setName-groupIndex-workerIndex`, and the two labels. The status is the Go
zero value but for the phase, which the helper leaves unset and which is
`Unknown` here. -/
def MakePod (setName groupIndex workerIndex ns : String) : Pod :=
  { Spec :=
      { Containers := [{ Name := "test", Image := "busybox", Env := [] }],
        Subdomain := ns },
    ObjectMeta :=
      { Name := setName ++ "-" ++ groupIndex ++ "-" ++ workerIndex,
        Namespace := ns,
        Labels := { GroupIndex := groupIndex, SetName := setName } },
    Status :=
      { Phase := .Unknown, InitContainerStatuses := [], ContainerStatuses := [] } }

/-- The scan of one status list: true at the first status whose restart count
is above 0. -/
def anyRestarted : List ContainerStatus → Bool
  | [] => false
  | stat :: rest => if stat.RestartCount > 0 then true else anyRestarted rest

/-- Modelled from the spec: `ContainerRestarted` of `pkg/utils/pod/pod_utils.go`,
which is not among the sources (only its test is). Section 4.4: true when the
phase is anything other than `Failed` and an init-container status or a
container status has a restart count above 0; both lists are scanned, stopping
at the first restart found. -/
def ContainerRestarted (pod : Pod) : Bool :=
  if pod.Status.Phase ≠ .Failed then
    if anyRestarted pod.Status.InitContainerStatuses then true
    else if anyRestarted pod.Status.ContainerStatuses then true
    else false
  else false

/-- The error kinds of the pod helpers: the spec names exactly one. -/
inductive PodError where
  | ConfigurationError
  deriving DecidableEq, Repr

/-- The leader address `<group-name>-<group-index>.<group-name>.<namespace>`
of section 4.2. -/
def leaderAddress (pod : Pod) : String :=
  pod.ObjectMeta.Labels.SetName ++ "-" ++ pod.ObjectMeta.Labels.GroupIndex ++ "." ++
    pod.ObjectMeta.Labels.SetName ++ "." ++ pod.ObjectMeta.Namespace

/-- Modelled from the spec: `AddLWSVariables` of `pkg/utils/pod/pod_utils.go`,
which is not among the sources (only its test is); the name of the variable, a
constant of the API package, is the parameter `leaderAddressKey`. Section 4.2: a
pod without containers is a `ConfigurationError`; otherwise the leader address
is prepended to the environment of the first container. Section 9: the source
prepends without deduplication, so an entry already carrying the name stays
where it is. The pod is mutated in place in Go; here the mutated pod is
returned. -/
def AddLWSVariables (leaderAddressKey : String) (pod : Pod) : Except PodError Pod :=
  match pod.Spec.Containers with
  | [] => .error .ConfigurationError
  | first :: others =>
    let leaderAddressEnvVar : EnvVar :=
      { Name := leaderAddressKey, Value := leaderAddress pod }
    let env := leaderAddressEnvVar :: first.Env
    .ok { pod with
      Spec := { pod.Spec with Containers := { first with Env := env } :: others } }

/-! ## Decimal digit strings -/

/-- The number a string of decimal digits denotes, continuing from `n`. -/
def decimalValueFrom (n : Nat) (d : List Char) : Nat :=
  d.foldl (fun acc c => acc * 10 + (c.toNat - 48)) n

/-- The number a string of decimal digits denotes. -/
def decimalValue (d : List Char) : Nat := decimalValueFrom 0 d

/-- The part of `s` after its last line feed (all of `s` when it has none). -/
def lastLine : List Char → List Char
  | [] => []
  | c :: cs => if '\n' ∈ (c :: cs) then lastLine cs else c :: cs

/-- A string is a non-empty run of decimal digits. -/
def IsDigits (d : List Char) : Prop := d ≠ [] ∧ ∀ c ∈ d, isDigit09 c = true

instance (d : List Char) : Decidable (IsDigits d) := by
  unfold IsDigits; infer_instance

/-- The value the test reads back: `pod.Spec.Containers[0].Env[0].Value`, when
both lists are non-empty. -/
def firstEnvValue (pod : Pod) : Option String :=
  match pod.Spec.Containers with
  | [] => none
  | container :: _ =>
    match container.Env with
    | [] => none
    | envVar :: _ => some envVar.Value

/-- The entries of the first container's environment that carry the name `key`. -/
def leaderEntries (key : String) (pod : Pod) : List EnvVar :=
  match pod.Spec.Containers with
  | [] => []
  | container :: _ => container.Env.filter (fun e => decide (e.Name = key))

/-! ## Facts about digit strings and `ParseInt` -/

theorem isDigit09_iff (c : Char) : isDigit09 c = true ↔ 48 ≤ c.toNat ∧ c.toNat ≤ 57 := by
  simp [isDigit09]

theorem decimalValueFrom_cons (n : Nat) (c : Char) (cs : List Char) :
    decimalValueFrom n (c :: cs) = decimalValueFrom (n * 10 + (c.toNat - 48)) cs := rfl

theorem le_decimalValueFrom (d : List Char) : ∀ n, n ≤ decimalValueFrom n d := by
  induction d with
  | nil => intro n; exact Nat.le_refl n
  | cons c cs ih =>
    intro n
    rw [decimalValueFrom_cons]
    have := ih (n * 10 + (c.toNat - 48))
    omega

/-- On a string of digits the loop of `ParseUint` for 32 bits yields the value
denoted, or a range error once that value exceeds `2^32 - 1`. -/
theorem parseUintLoop_digits (d : List Char) :
    ∀ n, n ≤ 4294967295 → (∀ c ∈ d, isDigit09 c = true) →
      parseUintLoop 4294967295 n d =
        if decimalValueFrom n d ≤ 4294967295 then .ok (decimalValueFrom n d)
        else .error .ErrRange := by
  induction d with
  | nil =>
    intro n hn _
    simp [parseUintLoop, decimalValueFrom, hn]
  | cons c cs ih =>
    intro n hn hd
    have hc : isDigit09 c = true := hd c (List.mem_cons_self c cs)
    have hcs : ∀ x ∈ cs, isDigit09 x = true := fun x hx => hd x (List.mem_cons_of_mem c hx)
    obtain ⟨h1, h2⟩ := (isDigit09_iff c).mp hc
    have hcut : ¬ n ≥ maxUint64 / 10 + 1 := by
      simp only [maxUint64]; omega
    have e10 : (n * 10) % 2 ^ 64 = n * 10 := Nat.mod_eq_of_lt (by omega)
    have e1 : (n * 10 + (c.toNat - 48)) % 2 ^ 64 = n * 10 + (c.toNat - 48) :=
      Nat.mod_eq_of_lt (by omega)
    rw [decimalValueFrom_cons]
    simp only [parseUintLoop, hc, if_true, hcut, if_false, e10, e1]
    by_cases hbig : n * 10 + (c.toNat - 48) > 4294967295
    · have hmono := le_decimalValueFrom cs (n * 10 + (c.toNat - 48))
      have hnot : ¬ decimalValueFrom (n * 10 + (c.toNat - 48)) cs ≤ 4294967295 := by omega
      simp [hbig, hnot]
    · have hok : ¬ (n * 10 + (c.toNat - 48) < n * 10 ∨ n * 10 + (c.toNat - 48) > 4294967295) := by
        omega
      rw [if_neg hok]
      exact ih _ (by omega) hcs

/-- On a non-empty string of digits `ParseInt(s, 10, 32)` yields the value
denoted when it is at most `2147483647`, and a range error otherwise. -/
theorem ParseInt_digits (d : List Char) (hne : d ≠ []) (hd : ∀ c ∈ d, isDigit09 c = true) :
    ParseInt d 32 =
      if decimalValue d ≤ 2147483647 then .ok (decimalValue d : Int)
      else .error .ErrRange := by
  cases d with
  | nil => exact absurd rfl hne
  | cons c cs =>
    obtain ⟨h1, h2⟩ := (isDigit09_iff c).mp (hd c (List.mem_cons_self c cs))
    have hplus : c ≠ '+' := by
      intro h; rw [h] at h1; revert h1; decide
    have hminus : c ≠ '-' := by
      intro h; rw [h] at h1; revert h1; decide
    have hloop := parseUintLoop_digits (c :: cs) 0 (by omega) hd
    have hU : ParseUint (c :: cs) 32 =
        if decimalValue (c :: cs) ≤ 4294967295 then .ok (decimalValue (c :: cs))
        else .error .ErrRange := by
      simp only [ParseUint, decimalValue]
      rw [if_neg (List.cons_ne_nil c cs)]
      exact hloop
    simp only [ParseInt, hplus, hminus, or_self, if_false, decide_False]
    rw [hU]
    by_cases hA : decimalValue (c :: cs) ≤ 2147483647
    · have hB : decimalValue (c :: cs) ≤ 4294967295 := by omega
      have hC : decimalValue (c :: cs) < 2147483648 := by omega
      simp [hA, hB, hC]
    · by_cases hB : decimalValue (c :: cs) ≤ 4294967295
      · have hC : 2147483648 ≤ decimalValue (c :: cs) := by omega
        simp [hA, hB, hC]
      · simp [hA, hB]

/-! ## Facts about the pattern matcher -/

theorem hyphen_not_digit : isDigit09 '-' = false := by decide

theorem newline_not_digit : isDigit09 '\n' = false := by decide

theorem matchSuffix_digits (d : List Char) (hd : IsDigits d) :
    matchSuffix ('-' :: d) = some d := by
  have ht : d.takeWhile isDigit09 = d := List.takeWhile_eq_self_iff.mpr hd.2
  have hdrop : d.dropWhile isDigit09 = [] := List.dropWhile_eq_nil_iff.mpr hd.2
  simp [matchSuffix, ht, hdrop, hd.1]

theorem matchSuffix_some (s g2 : List Char) (h : matchSuffix s = some g2) :
    s = '-' :: g2 ∧ IsDigits g2 := by
  cases s with
  | nil => simp [matchSuffix] at h
  | cons c cs =>
    by_cases hc : c = '-'
    · subst hc
      simp only [matchSuffix, if_true] at h
      split at h
      · rename_i hrun
        have hall : ∀ x ∈ cs, isDigit09 x = true := List.dropWhile_eq_nil_iff.mp hrun.2
        have ht : cs.takeWhile isDigit09 = cs := List.takeWhile_eq_self_iff.mpr hall
        rw [ht] at h hrun
        have hg : cs = g2 := Option.some.inj h
        subst hg
        exact ⟨rfl, hrun.1, hall⟩
      · exact absurd h (by simp)
    · simp [matchSuffix, hc] at h

/-- A match with the start fixed splits the text at a hyphen, with no line feed
before it and only digits after it. -/
theorem matchAt_sound (s : List Char) :
    ∀ g1 g2, matchAt s = some (g1, g2) →
      s = g1 ++ '-' :: g2 ∧ '\n' ∉ g1 ∧ IsDigits g2 := by
  induction s with
  | nil => intro g1 g2 h; simp [matchAt, matchSuffix] at h
  | cons c cs ih =>
    intro g1 g2 h
    have hstop : ∀ r, (matchSuffix (c :: cs)).map (fun g => (([] : List Char), g)) = some r →
        r.1 = [] ∧ c :: cs = '-' :: r.2 ∧ IsDigits r.2 := by
      intro r hr
      cases hm : matchSuffix (c :: cs) with
      | none => rw [hm] at hr; simp at hr
      | some g =>
        rw [hm] at hr
        have hr2 : (([] : List Char), g) = r := Option.some.inj hr
        subst hr2
        exact ⟨rfl, matchSuffix_some _ _ hm⟩
    by_cases hc : c = '\n'
    · have h2 : (matchSuffix (c :: cs)).map (fun g => (([] : List Char), g)) = some (g1, g2) := by
        simpa [matchAt, hc] using h
      obtain ⟨e1, e2, e3⟩ := hstop _ h2
      simp only at e1 e2 e3
      subst e1
      exact ⟨by simpa using e2, by simp, e3⟩
    · cases hm : matchAt cs with
      | some r =>
        obtain ⟨r1, r2⟩ := r
        have h2 : (c :: r1, r2) = (g1, g2) := by
          have : matchAt (c :: cs) = some (c :: r1, r2) := by
            simp [matchAt, hc, hm]
          rw [this] at h
          exact Option.some.inj h
        obtain ⟨e1, e2, e3⟩ := ih r1 r2 hm
        cases h2
        refine ⟨by rw [e1]; rfl, ?_, e3⟩
        intro hmem
        rcases List.mem_cons.mp hmem with h3 | h3
        · exact hc h3.symm
        · exact e2 h3
      | none =>
        have h2 : (matchSuffix (c :: cs)).map (fun g => (([] : List Char), g)) = some (g1, g2) := by
          simpa [matchAt, hc, hm] using h
        obtain ⟨e1, e2, e3⟩ := hstop _ h2
        simp only at e1 e2 e3
        subst e1
        exact ⟨by simpa using e2, by simp, e3⟩

theorem matchAt_digits (d : List Char) (hd : ∀ c ∈ d, isDigit09 c = true) :
    matchAt d = none := by
  cases hm : matchAt d with
  | none => rfl
  | some r =>
    obtain ⟨g1, g2⟩ := r
    obtain ⟨e1, _, _⟩ := matchAt_sound d g1 g2 hm
    have hmem : '-' ∈ d := by rw [e1]; simp
    have := hd _ hmem
    rw [hyphen_not_digit] at this
    exact absurd this (by simp)

/-- With the start fixed, a text without line feed before its final
hyphen-and-digits is split exactly there. -/
theorem matchAt_complete (p d : List Char) (hp : '\n' ∉ p) (hd : IsDigits d) :
    matchAt (p ++ '-' :: d) = some (p, d) := by
  induction p with
  | nil =>
    have h1 : matchAt d = none := matchAt_digits d hd.2
    have h2 : ('-' : Char) ≠ '\n' := by decide
    simp [matchAt, h1, h2, matchSuffix_digits d hd]
  | cons c cs ih =>
    have hc : c ≠ '\n' := fun h => hp (by rw [h]; exact List.mem_cons_self _ _)
    have hcs : '\n' ∉ cs := fun h => hp (List.mem_cons_of_mem _ h)
    simp [matchAt, hc, ih hcs]

theorem matchAt_newline (s : List Char) (h : '\n' ∈ s) : matchAt s = none := by
  cases hm : matchAt s with
  | none => rfl
  | some r =>
    obtain ⟨g1, g2⟩ := r
    obtain ⟨e1, e2, e3⟩ := matchAt_sound s g1 g2 hm
    rw [e1] at h
    rcases List.mem_append.mp h with h1 | h1
    · exact absurd h1 e2
    · rcases List.mem_cons.mp h1 with h2 | h2
      · exact absurd h2 (by decide)
      · have := e3.2 _ h2
        rw [newline_not_digit] at this
        exact absurd this (by simp)

theorem lastLine_of_no_newline (p : List Char) (hp : '\n' ∉ p) : lastLine p = p := by
  cases p with
  | nil => rfl
  | cons c cs => simp only [lastLine]; rw [if_neg hp]

theorem lastLine_no_newline (p : List Char) : '\n' ∉ lastLine p := by
  induction p with
  | nil => simp [lastLine]
  | cons c cs ih =>
    simp only [lastLine]
    split
    · exact ih
    · assumption

/-- The leftmost match on a text ending in a hyphen and digits: group 1 is what
stands between the last line feed and the final hyphen, group 2 the digits. -/
theorem findLeftmost_complete (p d : List Char) (hd : IsDigits d) :
    findLeftmost (p ++ '-' :: d) = [lastLine p ++ '-' :: d, lastLine p, d] := by
  induction p with
  | nil =>
    have := matchAt_complete [] d (by simp) hd
    simp only [List.nil_append] at this
    simp [findLeftmost, this, lastLine]
  | cons c cs ih =>
    by_cases hn : '\n' ∈ (c :: cs)
    · have h1 : matchAt (c :: cs ++ '-' :: d) = none :=
        matchAt_newline _ (List.mem_append_left _ hn)
      have h2 : lastLine (c :: cs) = lastLine cs := by
        simp only [lastLine]; rw [if_pos hn]
      rw [h2, ← ih]
      show findLeftmost (c :: (cs ++ '-' :: d)) = _
      simp only [findLeftmost]
      rw [show c :: (cs ++ '-' :: d) = c :: cs ++ '-' :: d from rfl, h1]
    · have h1 := matchAt_complete (c :: cs) d hn hd
      rw [lastLine_of_no_newline _ hn]
      show findLeftmost (c :: (cs ++ '-' :: d)) = _
      simp only [findLeftmost]
      rw [show c :: (cs ++ '-' :: d) = c :: cs ++ '-' :: d from rfl, h1]

/-- Whatever the leftmost match returns is either nothing or a split of a
suffix of the text at a hyphen followed by digits only. -/
theorem findLeftmost_sound (s : List Char) :
    findLeftmost s = [] ∨
      ∃ q g1 g2, findLeftmost s = [g1 ++ '-' :: g2, g1, g2] ∧
        s = q ++ (g1 ++ '-' :: g2) ∧ '\n' ∉ g1 ∧ IsDigits g2 := by
  induction s with
  | nil => left; simp [findLeftmost, matchAt, matchSuffix]
  | cons c cs ih =>
    cases hm : matchAt (c :: cs) with
    | some r =>
      obtain ⟨g1, g2⟩ := r
      obtain ⟨e1, e2, e3⟩ := matchAt_sound _ g1 g2 hm
      right
      refine ⟨[], g1, g2, ?_, by simpa using e1, e2, e3⟩
      simp only [findLeftmost, hm]
      rw [e1]
    | none =>
      have hstep : findLeftmost (c :: cs) = findLeftmost cs := by
        simp only [findLeftmost, hm]
      rw [hstep]
      rcases ih with h | ⟨q, g1, g2, h1, h2, h3, h4⟩
      · left; exact h
      · right
        exact ⟨c :: q, g1, g2, h1, by rw [h2]; rfl, h3, h4⟩

/-! ## The decimal rendering of a natural number -/

theorem digitChar_toNat (m : Nat) (hm : m < 10) : (Nat.digitChar m).toNat = 48 + m := by
  interval_cases m <;> rfl

theorem toDigitsCore_value (fuel : Nat) :
    ∀ n acc, n < fuel →
      decimalValueFrom 0 (Nat.toDigitsCore 10 fuel n acc) = decimalValueFrom n acc := by
  induction fuel with
  | zero => intro n acc h; omega
  | succ fuel ih =>
    intro n acc h
    have hm : n % 10 < 10 := Nat.mod_lt _ (by omega)
    have hdc : (Nat.digitChar (n % 10)).toNat - 48 = n % 10 := by
      rw [digitChar_toNat _ hm]; omega
    simp only [Nat.toDigitsCore]
    split
    · rename_i h0
      rw [decimalValueFrom_cons, hdc]
      congr 1
      omega
    · rename_i h0
      rw [ih (n / 10) _ (by omega), decimalValueFrom_cons, hdc]
      congr 1
      omega

theorem toDigitsCore_isDigit (fuel : Nat) :
    ∀ n acc, (∀ c ∈ acc, isDigit09 c = true) →
      ∀ c ∈ Nat.toDigitsCore 10 fuel n acc, isDigit09 c = true := by
  induction fuel with
  | zero => intro n acc h; simpa [Nat.toDigitsCore] using h
  | succ fuel ih =>
    intro n acc h
    have hm : n % 10 < 10 := Nat.mod_lt _ (by omega)
    have hd : isDigit09 (Nat.digitChar (n % 10)) = true := by
      rw [isDigit09_iff, digitChar_toNat _ hm]; omega
    have hacc : ∀ c ∈ Nat.digitChar (n % 10) :: acc, isDigit09 c = true := by
      intro c hc
      rcases List.mem_cons.mp hc with h1 | h1
      · rw [h1]; exact hd
      · exact h c h1
    simp only [Nat.toDigitsCore]
    split
    · exact hacc
    · exact ih _ _ hacc

theorem toDigitsCore_ne_nil (fuel : Nat) :
    ∀ n acc, acc ≠ [] ∨ 0 < fuel → Nat.toDigitsCore 10 fuel n acc ≠ [] := by
  induction fuel with
  | zero =>
    intro n acc h
    rcases h with h | h
    · simpa [Nat.toDigitsCore] using h
    · omega
  | succ fuel ih =>
    intro n acc _
    simp only [Nat.toDigitsCore]
    split
    · exact List.cons_ne_nil _ _
    · exact ih _ _ (Or.inl (List.cons_ne_nil _ _))

theorem toString_data (N : Nat) : (toString N).data = Nat.toDigits 10 N := rfl

/-- The decimal rendering of `N` is a non-empty run of digits denoting `N`. -/
theorem toString_isDigits (N : Nat) : IsDigits (toString N).data :=
  ⟨toDigitsCore_ne_nil _ _ _ (Or.inr (Nat.succ_pos N)),
    toDigitsCore_isDigit _ _ _ (by simp)⟩

theorem toString_decimalValue (N : Nat) : decimalValue (toString N).data = N := by
  rw [toString_data]
  exact toDigitsCore_value (N + 1) N [] (Nat.lt_succ_self N)

/-! ## `GetParentNameAndOrdinal` on matching and non-matching names -/

/-- On a name ending in a hyphen and digits: the parent is what stands between
the last line feed and the final hyphen, and the ordinal is the value of the
digits when `ParseInt` accepts it, `-1` otherwise. -/
theorem GetParentNameAndOrdinal_of_digits (name : String) (p d : List Char)
    (h : name.data = p ++ '-' :: d) (hd : IsDigits d) :
    GetParentNameAndOrdinal name =
      (String.mk (lastLine p),
        if decimalValue d ≤ 2147483647 then (decimalValue d : Int) else -1) := by
  have hf : FindStringSubmatch name =
      [String.mk (lastLine p ++ '-' :: d), String.mk (lastLine p), String.mk d] := by
    simp only [FindStringSubmatch, h, findLeftmost_complete p d hd, List.map]
  have hlen : ¬ (FindStringSubmatch name).length < 3 := by rw [hf]; simp
  simp only [GetParentNameAndOrdinal]
  rw [if_neg hlen, hf]
  simp only [List.getD_cons_succ, List.getD_cons_zero, ParseInt_digits d hd.1 hd.2]
  by_cases hv : decimalValue d ≤ 2147483647
  · simp [hv]
  · simp [hv]

/-- When the pattern does not match, the sentinel pair is returned. -/
theorem GetParentNameAndOrdinal_of_no_match (name : String)
    (h : findLeftmost name.data = []) : GetParentNameAndOrdinal name = ("", -1) := by
  simp [GetParentNameAndOrdinal, FindStringSubmatch, h]

/-! ## The naming resolver: claims C1, C2, C4 -/

/-- C1 (as amended): for every string `parent` without a line feed (it may contain
hyphens and digits, or be empty) and every natural number `N` up to `2147483647`,
`GetParentNameAndOrdinal` applied to `parent ++ "-" ++ decimal(N)` returns exactly
`(parent, N)`. -/
theorem C1_parent_and_ordinal_in_range (parent : String) (N : Nat)
    (hp : '\n' ∉ parent.data) (hN : N ≤ 2147483647) :
    GetParentNameAndOrdinal (parent ++ "-" ++ toString N) = (parent, (N : Int)) := by
  have hdata : (parent ++ "-" ++ toString N).data = parent.data ++ '-' :: (toString N).data := by
    simp only [String.data_append, List.append_assoc]
    rfl
  rw [GetParentNameAndOrdinal_of_digits _ _ _ hdata (toString_isDigits N),
    toString_decimalValue, lastLine_of_no_newline _ hp, if_pos hN]

/-- C1, witness: the name `a-b-12` built from parent `a-b` and ordinal 12. -/
theorem C1_parent_and_ordinal_in_range_witness :
    '\n' ∉ "a-b".data ∧ 12 ≤ 2147483647 ∧
      GetParentNameAndOrdinal ("a-b" ++ "-" ++ toString 12) = ("a-b", ((12 : Nat) : Int)) :=
  ⟨by decide, by decide, C1_parent_and_ordinal_in_range "a-b" 12 (by decide) (by decide)⟩

/-- C1, counterexample: the claim for every parent and every `N` fails at
`N = 2147483648` (the ordinal is `-1`) and at the parent `"a\nb"` (the parent
returned is `"b"`). -/
theorem C1_counterexample :
    GetParentNameAndOrdinal ("set" ++ "-" ++ toString 2147483648) = ("set", -1) ∧
      GetParentNameAndOrdinal ("a\nb" ++ "-" ++ toString 1) = ("b", 1) ∧
      ¬ (∀ (parent : String) (N : Nat),
          GetParentNameAndOrdinal (parent ++ "-" ++ toString N) = (parent, (N : Int))) := by
  refine ⟨by decide, by decide, ?_⟩
  intro h
  have h1 := h "set" 2147483648
  revert h1
  decide

/-- C2: for every name that does not end in a hyphen followed by one or more
decimal digits, `GetParentNameAndOrdinal` returns exactly `("", -1)` (the
function is total, so it does not fail). -/
theorem C2_no_match_gives_sentinel (name : String)
    (h : ¬ ∃ pre d : String,
      name = pre ++ "-" ++ d ∧ d ≠ "" ∧ ∀ c ∈ d.data, isDigit09 c = true) :
    GetParentNameAndOrdinal name = ("", -1) := by
  rcases findLeftmost_sound name.data with h0 | ⟨q, g1, g2, _, hs, _, hg⟩
  · exact GetParentNameAndOrdinal_of_no_match name h0
  · exfalso
    apply h
    refine ⟨String.mk (q ++ g1), String.mk g2, ?_, ?_, hg.2⟩
    · apply String.ext
      simp only [String.data_append, hs, List.append_assoc]
      rfl
    · intro hnil
      exact hg.1 (congrArg String.data hnil)

/-- C2, witness: the name `noordinal` has no hyphen at all. -/
theorem C2_no_match_gives_sentinel_witness :
    GetParentNameAndOrdinal "noordinal" = ("", -1) :=
  C2_no_match_gives_sentinel "noordinal" (by
    rintro ⟨pre, d, h, _, _⟩
    have hmem : '-' ∈ "noordinal".data := by
      rw [h]; simp only [String.data_append]
      exact List.mem_append_left _ (List.mem_append_right _ (by decide))
    revert hmem
    decide)

/-- C4: for every name `parent ++ "-" ++ d` whose digit string `d` denotes a value
above `2147483647`, the pattern matches, the ordinal returned is `-1`, and the
parent returned is still the matched parent string (capture group 1: the part of
`parent` after its last line feed, so `parent` itself when it has none). -/
theorem C4_overflow_keeps_parent (parent d : String)
    (hd : IsDigits d.data) (hv : 2147483647 < decimalValue d.data) :
    (FindStringSubmatch (parent ++ "-" ++ d)).length = 3 ∧
      GetParentNameAndOrdinal (parent ++ "-" ++ d) =
        ((FindStringSubmatch (parent ++ "-" ++ d)).getD 1 "", -1) ∧
      (FindStringSubmatch (parent ++ "-" ++ d)).getD 1 "" = String.mk (lastLine parent.data) ∧
      ('\n' ∉ parent.data → GetParentNameAndOrdinal (parent ++ "-" ++ d) = (parent, -1)) := by
  have hdata : (parent ++ "-" ++ d).data = parent.data ++ '-' :: d.data := by
    simp only [String.data_append, List.append_assoc]
    rfl
  have hf : FindStringSubmatch (parent ++ "-" ++ d) =
      [String.mk (lastLine parent.data ++ '-' :: d.data), String.mk (lastLine parent.data),
        String.mk d.data] := by
    simp only [FindStringSubmatch, hdata, findLeftmost_complete parent.data d.data hd, List.map]
  have hg := GetParentNameAndOrdinal_of_digits _ _ _ hdata hd
  rw [if_neg (by omega)] at hg
  refine ⟨by rw [hf]; rfl, ?_, by rw [hf]; rfl, ?_⟩
  · rw [hg, hf]; rfl
  · intro hp
    rw [hg, lastLine_of_no_newline _ hp]

/-- C4, witness: the name `set-2147483648` keeps the parent `set`. -/
theorem C4_overflow_keeps_parent_witness :
    IsDigits "2147483648".data ∧ 2147483647 < decimalValue "2147483648".data ∧
      GetParentNameAndOrdinal ("set" ++ "-" ++ "2147483648") = ("set", -1) :=
  ⟨by decide, by decide,
    (C4_overflow_keeps_parent "set" "2147483648" (by decide) (by decide)).2.2.2 (by decide)⟩

/-! ## The group convergence check: claims C3, C9, C10 -/

/-- C3: for every StatefulSet snapshot whose desired replica count is present,
`StatefulsetReady` returns a boolean that is true if and only if the desired
count equals `Status.Replicas` and `Status.CurrentRevision` equals
`Status.UpdateRevision`, and false on any mismatch. -/
theorem C3_ready_iff_converged (sts : StatefulSet) (replicas : Int)
    (h : sts.Spec.Replicas = some replicas) :
    ∃ b, StatefulsetReady sts = .ok b ∧
      (b = true ↔ replicas = sts.Status.Replicas ∧
        sts.Status.CurrentRevision = sts.Status.UpdateRevision) ∧
      (b = false ↔ ¬ (replicas = sts.Status.Replicas ∧
        sts.Status.CurrentRevision = sts.Status.UpdateRevision)) := by
  refine ⟨decide (replicas = sts.Status.Replicas) &&
      decide (sts.Status.CurrentRevision = sts.Status.UpdateRevision), ?_, ?_, ?_⟩
  · simp only [StatefulsetReady, h]
  · simp
  · simp

/-- C3, witness: desired 5 against current 3 (desired greater than current) is
not ready. -/
theorem C3_ready_iff_converged_witness :
    ∃ b, StatefulsetReady ⟨"sts", ⟨some 5, "svc"⟩, ⟨3, 3, 3, 3, 3, "r1", "r1"⟩⟩ = .ok b ∧
      (b = true ↔ (5 : Int) = 3 ∧ "r1" = "r1") ∧ (b = false ↔ ¬ ((5 : Int) = 3 ∧ "r1" = "r1")) :=
  C3_ready_iff_converged ⟨"sts", ⟨some 5, "svc"⟩, ⟨3, 3, 3, 3, 3, "r1", "r1"⟩⟩ 5 rfl

/-- C9 (as amended): for every StatefulSet snapshot whose desired replica count
(`Spec.Replicas`) is present, `StatefulsetReady` returns a boolean rather than
failing; on a snapshot whose `Spec.Replicas` is absent it returns no boolean, the
dereference panics. -/
theorem C9_returns_when_replicas_present (sts : StatefulSet) :
    (∀ replicas, sts.Spec.Replicas = some replicas → ∃ b, StatefulsetReady sts = .ok b) ∧
      (sts.Spec.Replicas = none → StatefulsetReady sts = .error .nilDereference) := by
  constructor
  · intro replicas h
    exact ⟨decide (replicas = sts.Status.Replicas) &&
        decide (sts.Status.CurrentRevision = sts.Status.UpdateRevision),
      by simp only [StatefulsetReady, h]⟩
  · intro h
    simp only [StatefulsetReady, h]

/-- C9, witness: a snapshot with two desired and two current replicas, in the
middle of a rollout. -/
theorem C9_returns_when_replicas_present_witness :
    ∃ b, StatefulsetReady ⟨"sts", ⟨some 2, "svc"⟩, ⟨2, 0, 2, 2, 0, "r1", "r2"⟩⟩ = .ok b :=
  (C9_returns_when_replicas_present
    ⟨"sts", ⟨some 2, "svc"⟩, ⟨2, 0, 2, 2, 0, "r1", "r2"⟩⟩).1 2 rfl

/-- C9, counterexample: on a snapshot whose `Spec.Replicas` is nil the call
panics, so `StatefulsetReady` does not return a boolean for every snapshot. -/
theorem C9_counterexample :
    StatefulsetReady ⟨"sts", ⟨none, "svc"⟩, ⟨0, 0, 0, 0, 0, "", ""⟩⟩ =
        .error .nilDereference ∧
      ¬ (∀ sts : StatefulSet, ∃ b, StatefulsetReady sts = .ok b) := by
  refine ⟨rfl, ?_⟩
  intro hall
  obtain ⟨b, hb⟩ := hall ⟨"sts", ⟨none, "svc"⟩, ⟨0, 0, 0, 0, 0, "", ""⟩⟩
  simp [StatefulsetReady] at hb

/-- C10: when `Spec.Replicas` is present the dereference in `StatefulsetReady`
cannot fail (no error is returned, a boolean is); and the call fails exactly when
`Spec.Replicas` is absent. -/
theorem C10_fails_only_on_absent_replicas (sts : StatefulSet) :
    (sts.Spec.Replicas ≠ none →
      (∀ e, StatefulsetReady sts ≠ .error e) ∧ ∃ b, StatefulsetReady sts = .ok b) ∧
    ((∃ e, StatefulsetReady sts = .error e) ↔ sts.Spec.Replicas = none) := by
  cases hr : sts.Spec.Replicas with
  | none =>
    refine ⟨fun h => absurd rfl h, fun _ => rfl, fun _ => ⟨.nilDereference, ?_⟩⟩
    simp only [StatefulsetReady, hr]
  | some r =>
    have hok : StatefulsetReady sts = .ok (decide (r = sts.Status.Replicas) &&
        decide (sts.Status.CurrentRevision = sts.Status.UpdateRevision)) := by
      simp only [StatefulsetReady, hr]
    refine ⟨fun _ => ⟨fun e he => ?_, _, hok⟩, fun ⟨e, he⟩ => ?_, fun h => ?_⟩
    · rw [hok] at he; cases he
    · rw [hok] at he; cases he
    · cases h

/-- C10, witness: a snapshot with one desired replica returns a boolean. -/
theorem C10_fails_only_on_absent_replicas_witness :
    (some (1 : Int)) ≠ none ∧
      ∃ b, StatefulsetReady ⟨"sts", ⟨some 1, "svc"⟩, ⟨1, 1, 1, 1, 1, "r1", "r1"⟩⟩ = .ok b :=
  ⟨by decide,
    ((C10_fails_only_on_absent_replicas
      ⟨"sts", ⟨some 1, "svc"⟩, ⟨1, 1, 1, 1, 1, "r1", "r1"⟩⟩).1 (by decide)).2⟩

/-! ## The pod helpers: claims C5 to C8 -/

theorem anyRestarted_iff (l : List ContainerStatus) :
    anyRestarted l = true ↔ ∃ s ∈ l, 0 < s.RestartCount := by
  induction l with
  | nil => simp [anyRestarted]
  | cons stat rest ih =>
    by_cases h : stat.RestartCount > 0
    · simp only [anyRestarted, if_pos h, true_iff]
      exact ⟨stat, List.mem_cons_self _ _, h⟩
    · simp only [anyRestarted, if_neg h, ih, List.mem_cons]
      constructor
      · rintro ⟨s, hs, hpos⟩
        exact ⟨s, Or.inr hs, hpos⟩
      · rintro ⟨s, hs | hs, hpos⟩
        · exact absurd (hs ▸ hpos) h
        · exact ⟨s, hs, hpos⟩

/-- C5: for every pod snapshot, `ContainerRestarted` returns true if and only if
the phase is not `Failed` and some init-container status or container status
has a restart count above 0. -/
theorem C5_restarted_iff (pod : Pod) :
    ContainerRestarted pod = true ↔
      pod.Status.Phase ≠ .Failed ∧
        ∃ s, (s ∈ pod.Status.InitContainerStatuses ∨ s ∈ pod.Status.ContainerStatuses) ∧
          0 < s.RestartCount := by
  by_cases hph : pod.Status.Phase = .Failed
  · simp [ContainerRestarted, hph]
  · have hex : (∃ s, (s ∈ pod.Status.InitContainerStatuses ∨ s ∈ pod.Status.ContainerStatuses) ∧
        0 < s.RestartCount) ↔
        (anyRestarted pod.Status.InitContainerStatuses = true ∨
          anyRestarted pod.Status.ContainerStatuses = true) := by
      rw [anyRestarted_iff, anyRestarted_iff]
      constructor
      · rintro ⟨s, hs | hs, hpos⟩
        · exact Or.inl ⟨s, hs, hpos⟩
        · exact Or.inr ⟨s, hs, hpos⟩
      · rintro (⟨s, hs, hpos⟩ | ⟨s, hs, hpos⟩)
        · exact ⟨s, Or.inl hs, hpos⟩
        · exact ⟨s, Or.inr hs, hpos⟩
    rw [hex]
    simp only [ContainerRestarted, ne_eq, hph, not_false_eq_true, if_true, true_and]
    cases anyRestarted pod.Status.InitContainerStatuses <;>
      cases anyRestarted pod.Status.ContainerStatuses <;> simp

/-- On a pod with containers `first :: others` the call succeeds and returns the
pod with the leader-address entry in front of the first container's other
entries. -/
theorem AddLWSVariables_cons (key : String) (pod : Pod) (first : Container)
    (others : List Container) (hc : pod.Spec.Containers = first :: others) :
    AddLWSVariables key pod = .ok
      ⟨pod.ObjectMeta,
        ⟨⟨first.Name, first.Image, ⟨key, leaderAddress pod⟩ :: first.Env⟩ :: others,
          pod.Spec.Subdomain⟩,
        pod.Status⟩ := by
  simp only [AddLWSVariables, hc]

/-- C6: for every pod with at least one container, `AddLWSVariables` succeeds and
the first environment entry of the first container then has the value
`g ++ "-" ++ i ++ "." ++ g ++ "." ++ ns`, where `g`, `i` are the pod's set-name
and group-index labels and `ns` its namespace; for the pods of `MakePod` the
value is the same for every worker index (and so for every pod name). -/
theorem C6_leader_address_injected (key : String) :
    (∀ pod : Pod, pod.Spec.Containers ≠ [] →
      ∃ pod1, AddLWSVariables key pod = .ok pod1 ∧
        firstEnvValue pod1 = some (pod.ObjectMeta.Labels.SetName ++ "-" ++
          pod.ObjectMeta.Labels.GroupIndex ++ "." ++ pod.ObjectMeta.Labels.SetName ++ "." ++
          pod.ObjectMeta.Namespace)) ∧
    (∀ g i w ns : String,
      ∃ pod1, AddLWSVariables key (MakePod g i w ns) = .ok pod1 ∧
        firstEnvValue pod1 = some (g ++ "-" ++ i ++ "." ++ g ++ "." ++ ns)) := by
  have hgen : ∀ pod : Pod, pod.Spec.Containers ≠ [] →
      ∃ pod1, AddLWSVariables key pod = .ok pod1 ∧ firstEnvValue pod1 = some (leaderAddress pod) := by
    intro pod hne
    cases hc : pod.Spec.Containers with
    | nil => exact absurd hc hne
    | cons first others =>
      exact ⟨_, AddLWSVariables_cons key pod first others hc, rfl⟩
  exact ⟨fun pod hne => hgen pod hne, fun g i w ns => hgen (MakePod g i w ns) (by simp [MakePod])⟩

/-- C6, witness: the worker pod `test-sample-1-3` of the test, in namespace
`lws`. -/
theorem C6_leader_address_injected_witness :
    (MakePod "test-sample" "1" "3" "lws").Spec.Containers ≠ [] ∧
      ∃ pod1, AddLWSVariables "LWS_LEADER_ADDRESS" (MakePod "test-sample" "1" "3" "lws") =
          .ok pod1 ∧
        firstEnvValue pod1 = some ("test-sample" ++ "-" ++ "1" ++ "." ++ "test-sample" ++ "." ++
          "lws") :=
  ⟨by decide,
    (C6_leader_address_injected "LWS_LEADER_ADDRESS").1 (MakePod "test-sample" "1" "3" "lws")
      (by decide)⟩

/-- C7: for every pod whose container list is empty, `AddLWSVariables` fails with
the configuration error. -/
theorem C7_no_containers_is_error (key : String) (pod : Pod)
    (h : pod.Spec.Containers = []) :
    AddLWSVariables key pod = .error .ConfigurationError := by
  simp only [AddLWSVariables, h]

/-- C7, witness: a pod whose spec has no containers. -/
theorem C7_no_containers_is_error_witness :
    AddLWSVariables "LWS_LEADER_ADDRESS"
        ⟨⟨"g-3", "ns", ⟨"g", "3"⟩⟩, ⟨[], "ns"⟩, ⟨.Pending, [], []⟩⟩ =
      .error .ConfigurationError :=
  C7_no_containers_is_error "LWS_LEADER_ADDRESS"
    ⟨⟨"g-3", "ns", ⟨"g", "3"⟩⟩, ⟨[], "ns"⟩, ⟨.Pending, [], []⟩⟩ rfl

/-- C8 (as amended): for every pod with at least one container, two invocations
of `AddLWSVariables` both succeed, and each prepends one entry named by the
leader-address key with the value `g ++ "-" ++ i ++ "." ++ g ++ "." ++ ns`
(`g`, `i` the set-name and group-index labels, `ns` the namespace): afterwards
the first entry of the first container has that value, and the entries under the
key are two such entries followed by those the pod carried before. -/
theorem C8_each_invocation_prepends (key : String) (pod : Pod)
    (h : pod.Spec.Containers ≠ []) :
    ∃ pod1 pod2, AddLWSVariables key pod = .ok pod1 ∧ AddLWSVariables key pod1 = .ok pod2 ∧
      firstEnvValue pod2 = some (pod.ObjectMeta.Labels.SetName ++ "-" ++
        pod.ObjectMeta.Labels.GroupIndex ++ "." ++ pod.ObjectMeta.Labels.SetName ++ "." ++
        pod.ObjectMeta.Namespace) ∧
      leaderEntries key pod2 =
        ⟨key, pod.ObjectMeta.Labels.SetName ++ "-" ++ pod.ObjectMeta.Labels.GroupIndex ++ "." ++
          pod.ObjectMeta.Labels.SetName ++ "." ++ pod.ObjectMeta.Namespace⟩ ::
        ⟨key, pod.ObjectMeta.Labels.SetName ++ "-" ++ pod.ObjectMeta.Labels.GroupIndex ++ "." ++
          pod.ObjectMeta.Labels.SetName ++ "." ++ pod.ObjectMeta.Namespace⟩ ::
        leaderEntries key pod := by
  cases hc : pod.Spec.Containers with
  | nil => exact absurd hc h
  | cons first others =>
    have h1 := AddLWSVariables_cons key pod first others hc
    have h2 := AddLWSVariables_cons key
      ⟨pod.ObjectMeta,
        ⟨⟨first.Name, first.Image, ⟨key, leaderAddress pod⟩ :: first.Env⟩ :: others,
          pod.Spec.Subdomain⟩,
        pod.Status⟩ _ others rfl
    refine ⟨_, _, h1, h2, rfl, ?_⟩
    have hpod : leaderEntries key pod = first.Env.filter (fun e => decide (e.Name = key)) := by
      simp only [leaderEntries, hc]
    rw [hpod]
    simp only [leaderEntries, List.filter_cons, decide_True, if_true]
    rfl

/-- C8, witness: the worker pod `test-sample-0-1` of the test carries no entry
under the key at first and two after two invocations. -/
theorem C8_each_invocation_prepends_witness :
    (MakePod "test-sample" "0" "1" "default").Spec.Containers ≠ [] ∧
      ∃ pod1 pod2,
        AddLWSVariables "LWS_LEADER_ADDRESS" (MakePod "test-sample" "0" "1" "default") =
          .ok pod1 ∧
        AddLWSVariables "LWS_LEADER_ADDRESS" pod1 = .ok pod2 ∧
        firstEnvValue pod2 = some ("test-sample" ++ "-" ++ "0" ++ "." ++ "test-sample" ++ "." ++
          "default") ∧
        leaderEntries "LWS_LEADER_ADDRESS" pod2 =
          ⟨"LWS_LEADER_ADDRESS",
            "test-sample" ++ "-" ++ "0" ++ "." ++ "test-sample" ++ "." ++ "default"⟩ ::
          ⟨"LWS_LEADER_ADDRESS",
            "test-sample" ++ "-" ++ "0" ++ "." ++ "test-sample" ++ "." ++ "default"⟩ ::
          leaderEntries "LWS_LEADER_ADDRESS" (MakePod "test-sample" "0" "1" "default") :=
  ⟨by decide,
    C8_each_invocation_prepends "LWS_LEADER_ADDRESS" (MakePod "test-sample" "0" "1" "default")
      (by decide)⟩

/-- C8, counterexample: on the worker pod `test-sample-0-1` of the test two
invocations succeed and leave two entries under the key on the first container,
so it is not the case that exactly one is left on every pod with a container. -/
theorem C8_counterexample :
    (∃ pod1 pod2,
      AddLWSVariables "LWS_LEADER_ADDRESS" (MakePod "test-sample" "0" "1" "default") =
        .ok pod1 ∧
      AddLWSVariables "LWS_LEADER_ADDRESS" pod1 = .ok pod2 ∧
      leaderEntries "LWS_LEADER_ADDRESS" pod2 =
        [⟨"LWS_LEADER_ADDRESS", "test-sample-0.test-sample.default"⟩,
          ⟨"LWS_LEADER_ADDRESS", "test-sample-0.test-sample.default"⟩]) ∧
    ¬ (∀ (key : String) (pod : Pod), pod.Spec.Containers ≠ [] →
        ∃ pod1 pod2, AddLWSVariables key pod = .ok pod1 ∧ AddLWSVariables key pod1 = .ok pod2 ∧
          (leaderEntries key pod2).length = 1) := by
  constructor
  · exact ⟨_, _, AddLWSVariables_cons _ _ _ _ rfl, AddLWSVariables_cons _ _ _ _ rfl, by decide⟩
  · intro hall
    obtain ⟨pod1, pod2, h1, h2, hlen⟩ :=
      hall "LWS_LEADER_ADDRESS" (MakePod "test-sample" "0" "1" "default") (by decide)
    rw [AddLWSVariables_cons _ _ _ _ rfl] at h1
    cases h1
    rw [AddLWSVariables_cons _ _ _ _ rfl] at h2
    cases h2
    revert hlen
    decide

/-! ## The naming resolver: claims C11, C12, C13 -/

/-- What `GetParentNameAndOrdinal` returns once the pattern has matched with
groups `g1` and `g2`: the parent is `g1`, the ordinal the value of `g2` when
`ParseInt` accepts it, `-1` otherwise. -/
theorem GetParentNameAndOrdinal_of_groups (name : String) (w g1 g2 : List Char)
    (h : findLeftmost name.data = [w, g1, g2]) (hd : IsDigits g2) :
    GetParentNameAndOrdinal name =
      (String.mk g1, if decimalValue g2 ≤ 2147483647 then (decimalValue g2 : Int) else -1) := by
  have hf : FindStringSubmatch name = [String.mk w, String.mk g1, String.mk g2] := by
    simp only [FindStringSubmatch, h, List.map]
  have hlen : ¬ (FindStringSubmatch name).length < 3 := by rw [hf]; simp
  simp only [GetParentNameAndOrdinal]
  rw [if_neg hlen, hf]
  simp only [List.getD_cons_succ, List.getD_cons_zero, ParseInt_digits g2 hd.1 hd.2]
  by_cases hv : decimalValue g2 ≤ 2147483647
  · simp [hv]
  · simp [hv]

theorem hyphen_not_mem_of_isDigits (d : List Char) (hd : IsDigits d) : '-' ∉ d := by
  intro hmem
  have := hd.2 _ hmem
  rw [hyphen_not_digit] at this
  exact absurd this (by simp)

/-- C11: for every string `parent` without a line feed and every non-empty string
`d` of decimal digits (leading zeros allowed) whose value is at most
`2147483647`, `GetParentNameAndOrdinal (parent ++ "-" ++ d)` is
`(parent, value(d))`. -/
theorem C11_round_trip_in_range (parent d : String)
    (hp : '\n' ∉ parent.data) (hd : IsDigits d.data)
    (hv : decimalValue d.data ≤ 2147483647) :
    GetParentNameAndOrdinal (parent ++ "-" ++ d) = (parent, (decimalValue d.data : Int)) := by
  have hdata : (parent ++ "-" ++ d).data = parent.data ++ '-' :: d.data := by
    simp only [String.data_append, List.append_assoc]
    rfl
  rw [GetParentNameAndOrdinal_of_digits _ _ _ hdata hd, lastLine_of_no_newline _ hp, if_pos hv]

/-- C11, witness: the parent `a-b` with the digits `007`; the split is at the
final hyphen and the leading zeros are dropped. -/
theorem C11_round_trip_in_range_witness :
    '\n' ∉ "a-b".data ∧ IsDigits "007".data ∧ decimalValue "007".data ≤ 2147483647 ∧
      GetParentNameAndOrdinal ("a-b" ++ "-" ++ "007") = ("a-b", 7) :=
  ⟨by decide, by decide, by decide,
    C11_round_trip_in_range "a-b" "007" (by decide) (by decide) (by decide)⟩

/-- C12: for every name, if `GetParentNameAndOrdinal name = (parent, n)` with
`n` other than `-1`, then there is a non-empty string `d` of decimal digits
(so without hyphen) of value `n` such that `name` ends with
`parent ++ "-" ++ d`; and when `name` has no line feed, `name` is exactly
`parent ++ "-" ++ d`. -/
theorem C12_successful_parse_is_sound (name parent : String) (n : Int)
    (h : GetParentNameAndOrdinal name = (parent, n)) (hn : n ≠ -1) :
    ∃ d : String, IsDigits d.data ∧ (decimalValue d.data : Int) = n ∧ '-' ∉ d.data ∧
      (∃ pre : String, name = pre ++ (parent ++ "-" ++ d)) ∧
      ('\n' ∉ name.data → name = parent ++ "-" ++ d) := by
  rcases findLeftmost_sound name.data with h0 | ⟨q, g1, g2, hfind, hs, hg1, hg2⟩
  · rw [GetParentNameAndOrdinal_of_no_match name h0] at h
    have h2 : (-1 : Int) = n := congrArg Prod.snd h
    exact absurd h2.symm hn
  · rw [GetParentNameAndOrdinal_of_groups name _ g1 g2 hfind hg2] at h
    have hpar : String.mk g1 = parent := congrArg Prod.fst h
    have hord : (if decimalValue g2 ≤ 2147483647 then (decimalValue g2 : Int) else -1) = n :=
      congrArg Prod.snd h
    have hval : (decimalValue g2 : Int) = n := by
      by_cases hv : decimalValue g2 ≤ 2147483647
      · rw [if_pos hv] at hord; exact hord
      · rw [if_neg hv] at hord; exact absurd hord.symm hn
    subst hpar
    refine ⟨String.mk g2, hg2, hval, hyphen_not_mem_of_isDigits g2 hg2, ⟨String.mk q, ?_⟩, ?_⟩
    · apply String.ext
      simp only [String.data_append, hs, List.append_assoc]
      rfl
    · intro hnl
      have hs2 : name.data = (q ++ g1) ++ '-' :: g2 := by rw [hs, List.append_assoc]
      have hqg : '\n' ∉ q ++ g1 := by
        intro hmem
        exact hnl (by rw [hs2]; exact List.mem_append_left _ hmem)
      have hc := findLeftmost_complete (q ++ g1) g2 hg2
      rw [← hs2, hfind, lastLine_of_no_newline _ hqg] at hc
      have hq : g1 = q ++ g1 := by
        have := congrArg (fun l => l.getD 1 []) hc
        simpa using this
      apply String.ext
      simp only [String.data_append, hs2, ← hq, List.append_assoc]
      rfl

/-- C12, witness: `a-b-12` parses to `("a-b", 12)`. -/
theorem C12_successful_parse_is_sound_witness :
    GetParentNameAndOrdinal "a-b-12" = ("a-b", 12) ∧ (12 : Int) ≠ -1 ∧
      ∃ d : String, IsDigits d.data ∧ (decimalValue d.data : Int) = 12 ∧ '-' ∉ d.data ∧
        (∃ pre : String, "a-b-12" = pre ++ ("a-b" ++ "-" ++ d)) ∧
        ('\n' ∉ "a-b-12".data → "a-b-12" = "a-b" ++ "-" ++ d) :=
  ⟨by decide, by decide,
    C12_successful_parse_is_sound "a-b-12" "a-b" 12 (by decide) (by decide)⟩

/-- C13: for every input string the ordinal returned is `-1` or lies in
`0..2147483647`; and whenever the parent returned is not empty, the pattern
matched: the name ends in a hyphen followed by one or more decimal digits. -/
theorem C13_ordinal_range_and_parent (name : String) :
    ((GetParentNameAndOrdinal name).2 = -1 ∨
      (0 ≤ (GetParentNameAndOrdinal name).2 ∧ (GetParentNameAndOrdinal name).2 ≤ 2147483647)) ∧
    ((GetParentNameAndOrdinal name).1 ≠ "" →
      (FindStringSubmatch name).length = 3 ∧
        ∃ pre d : String, name = pre ++ "-" ++ d ∧ IsDigits d.data) := by
  rcases findLeftmost_sound name.data with h0 | ⟨q, g1, g2, hfind, hs, _, hg2⟩
  · rw [GetParentNameAndOrdinal_of_no_match name h0]
    exact ⟨Or.inl rfl, fun hne => absurd rfl hne⟩
  · rw [GetParentNameAndOrdinal_of_groups name _ g1 g2 hfind hg2]
    constructor
    · by_cases hv : decimalValue g2 ≤ 2147483647
      · right
        simp only [if_pos hv]
        exact ⟨Int.ofNat_nonneg _, by exact_mod_cast hv⟩
      · left
        simp only [if_neg hv]
    · intro _
      refine ⟨by simp [FindStringSubmatch, hfind], String.mk (q ++ g1), String.mk g2, ?_, hg2⟩
      apply String.ext
      simp only [String.data_append, hs, List.append_assoc]
      rfl

/-- C13, witness: `set-7` returns the non-empty parent `set`, and its name ends
in a hyphen and digits. -/
theorem C13_ordinal_range_and_parent_witness :
    (GetParentNameAndOrdinal "set-7").1 ≠ "" ∧
      (FindStringSubmatch "set-7").length = 3 ∧
        ∃ pre d : String, "set-7" = pre ++ "-" ++ d ∧ IsDigits d.data :=
  ⟨by decide, (C13_ordinal_range_and_parent "set-7").2 (by decide)⟩

/-! ## The group convergence check: claim C14 -/

/-- C14: `StatefulsetReady` depends only on `Spec.Replicas`, `Status.Replicas`,
`Status.CurrentRevision` and `Status.UpdateRevision`: two snapshots that agree on
these four fields get the same result; so a snapshot is reported ready as soon
as the replica counts and the revisions coincide, whatever its ready and
available counts and even with both revisions empty. -/
theorem C14_depends_on_four_fields :
    (∀ s1 s2 : StatefulSet, s1.Spec.Replicas = s2.Spec.Replicas →
      s1.Status.Replicas = s2.Status.Replicas →
      s1.Status.CurrentRevision = s2.Status.CurrentRevision →
      s1.Status.UpdateRevision = s2.Status.UpdateRevision →
      StatefulsetReady s1 = StatefulsetReady s2) ∧
    (∀ (name service : String) (replicas ready current updated available : Int)
      (revision : String),
      StatefulsetReady ⟨name, ⟨some replicas, service⟩,
        ⟨replicas, ready, current, updated, available, revision, revision⟩⟩ = .ok true) := by
  constructor
  · intro s1 s2 h1 h2 h3 h4
    simp only [StatefulsetReady, h1, h2, h3, h4]
  · intro name service replicas ready current updated available revision
    simp [StatefulsetReady]

/-- C14, witness: two snapshots that differ in name, service and the ready,
current, updated and available counts but agree on the four fields; the second
has zero ready and available replicas and empty revisions, and is ready. -/
theorem C14_depends_on_four_fields_witness :
    StatefulsetReady ⟨"a", ⟨some 3, "svc"⟩, ⟨3, 3, 3, 3, 3, "", ""⟩⟩ =
        StatefulsetReady ⟨"b", ⟨some 3, "other"⟩, ⟨3, 0, 0, 0, 0, "", ""⟩⟩ ∧
      StatefulsetReady ⟨"b", ⟨some 3, "other"⟩, ⟨3, 0, 0, 0, 0, "", ""⟩⟩ = .ok true :=
  ⟨C14_depends_on_four_fields.1 ⟨"a", ⟨some 3, "svc"⟩, ⟨3, 3, 3, 3, 3, "", ""⟩⟩
      ⟨"b", ⟨some 3, "other"⟩, ⟨3, 0, 0, 0, 0, "", ""⟩⟩ rfl rfl rfl rfl,
    C14_depends_on_four_fields.2 "b" "other" 3 0 0 0 0 ""⟩

end Lws
